import Mathlib

/-!
Shallow embedding of `src/drawRoute.py` from the AMSI-Optimise2018 repository.

The script reads a routing instance (node ids with 2D integer coordinates),
builds a pairwise Euclidean cost table, reads a solver result file into a
mapping from route owner to its ordered edge list, sums edge costs, and
renders the routes (two style/color slots only).

Python dictionaries are modelled as association lists in insertion order with
value overwrite on key collision (`dictInsert`); dictionary lookup is
`dlookup`.  Files are modelled at the level the script sees them: the
instance file as a list of integer rows, the result file as a list of lines,
each line a list of tokens, a token being `some n` for a parseable integer
and `none` otherwise.  Fallible steps (indexing, unpacking, `int()`
conversion, dictionary lookup) return `Option`.
-/

namespace DrawRoute

/-- A 2D integer coordinate, as stored in `positions[a] = b, c`. -/
abbrev Pos2 := ℤ × ℤ

/-- The `positions` dictionary: node id to coordinate, in insertion order. -/
abbrev PosMap := List (ℤ × Pos2)

/-- The `suppliersRoute` dictionary: owner to its ordered list of edges. -/
abbrev RouteMap := List (ℤ × List (ℤ × ℤ))

/-- The `costs` dictionary: ordered node pair to Euclidean distance. -/
abbrev CostTable := List ((ℤ × ℤ) × ℝ)

/-- Dictionary lookup `d[k]` on an association list: first entry whose key
matches (keys are unique under `dictInsert`, so this is the dict value). -/
def dlookup {κ α : Type} [DecidableEq κ] (k : κ) : List (κ × α) → Option α
  | [] => none
  | (a, v) :: rest => if a = k then some v else dlookup k rest

/-- The key list of a dictionary, in insertion order. -/
def keysOf {κ α : Type} (d : List (κ × α)) : List κ := d.map Prod.fst

/-- Python dictionary assignment `d[k] = v`: overwrite in place if the key is
present, otherwise append the new entry at the end (insertion order). -/
def dictInsert {κ α : Type} [DecidableEq κ] (k : κ) (v : α) (d : List (κ × α)) :
    List (κ × α) :=
  if k ∈ keysOf d then
    d.map (fun kv => if kv.1 = k then (k, v) else kv)
  else d ++ [(k, v)]

/-- Python `range(a, b)` over integers: `[a, a+1, ..., b-1]`, empty if `b ≤ a`. -/
def rangeZ (a b : ℤ) : List ℤ :=
  (List.range (b - a).toNat).map (fun k : ℕ => a + (k : ℤ))

/-- The position-row loop of `readInstance`: for each row, `a, b, c =
[int(r) for r in row[0:3]]` (fails if the row has fewer than three entries)
then `positions[a] = b, c`. -/
def readRows : List (List ℤ) → PosMap → Option PosMap
  | [], d => some d
  | row :: rest, d =>
    match row with
    | a :: b :: c :: _ => readRows rest (dictInsert a (b, c) d)
    | _ => none

/-- The function `readInstance`: row 0 gives `nSuppliers, nConsumers` (fails if absent or
shorter than two entries); `suppliers = range(1, nSuppliers+1)`,
`consumers = range(nSuppliers+1, nSuppliers+nConsumers+1)`,
`cd = nSuppliers + nConsumers + 1`; the position rows are `inputData[2:]`,
i.e. all rows from index 2 on. -/
def readInstance (rows : List (List ℤ)) :
    Option (List ℤ × List ℤ × ℤ × PosMap) :=
  match rows with
  | row0 :: _ =>
    match row0 with
    | n1 :: n2 :: _ =>
      (readRows (rows.drop 2) []).map
        (fun ps => (rangeZ 1 (n1 + 1), rangeZ (n1 + 1) (n1 + n2 + 1),
                    n1 + n2 + 1, ps))
    | _ => none
  | [] => none

/-- Euclidean distance `((xi - xj)**2 + (yi - yj)**2)**0.5` between two
stored coordinates. -/
noncomputable def dist (p q : Pos2) : ℝ :=
  Real.sqrt (((p.1 : ℝ) - (q.1 : ℝ)) ^ 2 + ((p.2 : ℝ) - (q.2 : ℝ)) ^ 2)

/-- The cost-table construction: `for (i, (xi, yi)) in positions.items(): for
(j, (xj, yj)) in positions.items(): costs[i, j] = ...`.  With unique position
keys every pair `(i, j)` is assigned exactly once, so the dictionary is this
association list. -/
noncomputable def costs (positions : PosMap) : CostTable :=
  positions.flatMap (fun ip : ℤ × Pos2 =>
    positions.map (fun jq : ℤ × Pos2 => ((ip.1, jq.1), DrawRoute.dist ip.2 jq.2)))

/-- One result line past the `len(words) > 1` guard:
`a, b, c = [int(x) for x in words]` succeeds exactly when the line has three
tokens, all parseable integers; otherwise `int()` or tuple unpacking raises. -/
def parseEdgeLine : List (Option ℤ) → Option (ℤ × ℤ × ℤ)
  | [some a, some b, some c] => some (a, b, c)
  | _ => none

/-- The dictionary step `route = suppliersRoute.get(a, []); route.append((b, c));
suppliersRoute[a] = route`. -/
def routeInsert (a : ℤ) (e : ℤ × ℤ) (d : RouteMap) : RouteMap :=
  dictInsert a (((dlookup a d).getD []) ++ [e]) d

/-- The line loop of `readResult`: lines with at most one token are skipped,
any other line must parse as three integers and contributes its edge to its
owner's route. -/
def readResultAux : List (List (Option ℤ)) → RouteMap → Option RouteMap
  | [], d => some d
  | line :: rest, d =>
    if line.length > 1 then
      match parseEdgeLine line with
      | some (a, bc) => readResultAux rest (routeInsert a bc d)
      | none => none
    else readResultAux rest d

/-- The function `readResult`: fold the line loop from the empty `suppliersRoute`. -/
def readResult (lines : List (List (Option ℤ))) : Option RouteMap :=
  readResultAux lines []

/-- The inner edge loop of the drawing pass: `for (a, b) in edges:
totalCost += costs[a, b]`, failing on a missing cost entry. -/
noncomputable def routeCost (cs : CostTable) : List (ℤ × ℤ) → ℝ → Option ℝ
  | [], acc => some acc
  | e :: rest, acc =>
    match dlookup e cs with
    | some c => routeCost cs rest (acc + c)
    | none => none

/-- The cost-accumulation across `suppliersRoute.values()`: each owner's
edges are summed in order into the running `totalCost`. -/
noncomputable def totalCost (cs : CostTable) : List (List (ℤ × ℤ)) → ℝ → Option ℝ
  | [], acc => some acc
  | edges :: rest, acc =>
    match routeCost cs edges acc with
    | some acc2 => totalCost cs rest acc2
    | none => none

/-- The list `colors = ['k', 'k']`. -/
def colors : List Char := ['k', 'k']

/-- The list `styles = ['solid', 'dashed']`. -/
def styles : List String := ["solid", "dashed"]

/-- Abort causes of the drawing loop: a missing cost entry (`costs[a, b]`
raises `KeyError`) or running off the two-slot style/color arrays
(`colors[i]` / `styles[i]` raise `IndexError`). -/
inductive RunError where
  | lookupErr : RunError
  | indexErr : RunError
deriving DecidableEq

/-- A rendered route: the edge list drawn with its color and line style. -/
abbrev Render := List (ℤ × ℤ) × Char × String

/-- The full drawing loop `for (i, edges) in enumerate(suppliersRoute.values())`:
first the edge costs are accumulated (aborting on a missing entry), then the
owner's edges are drawn with `colors[i]` and `styles[i]` (aborting past
index 1).  Returns the renders emitted before any abort, and either the final
total or the abort cause. -/
noncomputable def drawLoop (cs : CostTable) :
    List (List (ℤ × ℤ)) → ℕ → ℝ → List Render →
    List Render × Except RunError ℝ
  | [], _, acc, rendered => (rendered, Except.ok acc)
  | edges :: rest, i, acc, rendered =>
    match routeCost cs edges acc with
    | none => (rendered, Except.error RunError.lookupErr)
    | some acc2 =>
      match colors.get? i, styles.get? i with
      | some col, some sty =>
          drawLoop cs rest (i + 1) acc2 (rendered ++ [(edges, col, sty)])
      | _, _ => (rendered, Except.error RunError.indexErr)

/-- First-seen deduplication: the owners in order of first occurrence.
Written from the spec of the Result Reader, independently of the dictionary
implementation. -/
def firstSeen : List ℤ → List ℤ
  | [] => []
  | a :: rest => a :: (firstSeen rest).filter (fun x => x ≠ a)

/-- The edges belonging to owner `o`, in file order.  Written from the spec of
the Result Reader. -/
def edgesOf (o : ℤ) (entries : List (ℤ × ℤ × ℤ)) : List (ℤ × ℤ) :=
  (entries.filter (fun p => p.1 = o)).map Prod.snd

/-- The Result Reader contract as the spec states it: map each owner, in
first-seen order, to its edges in file order. -/
def routesSpec (entries : List (ℤ × ℤ × ℤ)) : RouteMap :=
  (firstSeen (entries.map Prod.fst)).map (fun o => (o, edgesOf o entries))

/-- The `(owner, from, to)` triples of the lines that parse as edges. -/
def extractEntries (lines : List (List (Option ℤ))) : List (ℤ × ℤ × ℤ) :=
  lines.filterMap parseEdgeLine

/-- Look up one node's position in the instance read from `rows`: `some
(dlookup a positions)` when `readInstance` succeeds. -/
def instPositionsLookup (rows : List (List ℤ)) (a : ℤ) : Option (Option Pos2) :=
  (readInstance rows).map (fun out => dlookup a out.2.2.2)

/-- The script's end-to-end total: read the instance, build the cost table,
read the result file, and accumulate the total cost.  `some none` means the
files parsed but a cost lookup failed. -/
noncomputable def pipelineTotal (rows : List (List ℤ))
    (lines : List (List (Option ℤ))) : Option (Option ℝ) :=
  (readInstance rows).bind (fun out =>
    (readResult lines).map (fun routes =>
      totalCost (costs out.2.2.2) (routes.map Prod.snd) 0))

/-! ## Helper lemmas -/

/-- Membership in a Python-style integer range. -/
theorem mem_rangeZ {a b x : ℤ} : x ∈ rangeZ a b ↔ a ≤ x ∧ x < b := by
  constructor
  · intro hx
    rw [rangeZ, List.mem_map] at hx
    obtain ⟨k, hk, rfl⟩ := hx
    rw [List.mem_range] at hk
    omega
  · rintro ⟨h1, h2⟩
    rw [rangeZ, List.mem_map]
    exact ⟨(x - a).toNat, by rw [List.mem_range]; omega, by omega⟩

/-- A dictionary lookup succeeds exactly on the stored keys. -/
theorem dlookup_isSome_iff {α : Type} {k : ℤ} {d : List (ℤ × α)} :
    (∃ v, dlookup k d = some v) ↔ k ∈ keysOf d := by
  induction d with
  | nil => simp [dlookup, keysOf]
  | cons kv rest ih =>
    obtain ⟨a, v⟩ := kv
    by_cases h : a = k
    · subst h
      simp [dlookup, keysOf]
    · simp [dlookup, h, keysOf] at ih ⊢
      rw [ih]
      tauto

/-- A dictionary lookup fails exactly off the stored keys. -/
theorem dlookup_eq_none_iff {α : Type} {k : ℤ} {d : List (ℤ × α)} :
    dlookup k d = none ↔ k ∉ keysOf d := by
  rw [← dlookup_isSome_iff]
  cases h : dlookup k d <;> simp [h]

/-- The distance from a point to itself is zero. -/
theorem dist_self (p : Pos2) : DrawRoute.dist p p = 0 := by
  simp [DrawRoute.dist]

/-- The Euclidean distance is symmetric in its arguments. -/
theorem dist_comm (p q : Pos2) : DrawRoute.dist p q = DrawRoute.dist q p := by
  rw [DrawRoute.dist, DrawRoute.dist]
  ring_nf

/-- Lookup distributes over list append, first list first. -/
theorem dlookup_append {κ α : Type} [DecidableEq κ] (k : κ) (l1 l2 : List (κ × α)) :
    dlookup k (l1 ++ l2) =
      match dlookup k l1 with
      | some v => some v
      | none => dlookup k l2 := by
  induction l1 with
  | nil => simp [dlookup]
  | cons kv rest ih =>
    obtain ⟨a, v⟩ := kv
    by_cases h : a = k <;> simp [dlookup, h, ih]

/-- Lookup in one row block of the cost table: the block built from source
node `i0` answers exactly the pairs `(i0, j)` with `j` a stored key. -/
theorem dlookup_costs_block (i j i0 : ℤ) (p0 : Pos2) (q : PosMap) :
    dlookup (i, j) (q.map (fun jq : ℤ × Pos2 => ((i0, jq.1), DrawRoute.dist p0 jq.2))) =
      if i0 = i then (dlookup j q).map (fun pj => DrawRoute.dist p0 pj) else none := by
  induction q with
  | nil => simp [dlookup]
  | cons jq rest ih =>
    obtain ⟨j0, q0⟩ := jq
    by_cases hi : i0 = i
    · subst hi
      by_cases hj : j0 = j <;> simp [dlookup, hj, ih, Prod.mk.injEq]
    · by_cases hj : j0 = j <;> simp [dlookup, hi, hj, ih, Prod.mk.injEq]

/-- Lookup in the double-loop table over two position lists. -/
theorem dlookup_costs_aux (p q : PosMap) (i j : ℤ) :
    dlookup (i, j) (p.flatMap (fun ip : ℤ × Pos2 =>
        q.map (fun jq : ℤ × Pos2 => ((ip.1, jq.1), DrawRoute.dist ip.2 jq.2)))) =
      match dlookup i p, dlookup j q with
      | some pi, some pj => some (DrawRoute.dist pi pj)
      | _, _ => none := by
  induction p with
  | nil => simp [dlookup]
  | cons ip rest ih =>
    obtain ⟨i0, p0⟩ := ip
    rw [List.flatMap_cons, dlookup_append, dlookup_costs_block]
    by_cases hi : i0 = i
    · subst hi
      cases hq : dlookup j q <;> simp [dlookup, hq, ih]
    · simp [dlookup, hi, ih]

/-- A cost-table entry exists exactly when both node ids have positions, in
which case it is the Euclidean distance between those positions. -/
theorem dlookup_costs (p : PosMap) (i j : ℤ) :
    dlookup (i, j) (costs p) =
      match dlookup i p, dlookup j p with
      | some pi, some pj => some (DrawRoute.dist pi pj)
      | _, _ => none :=
  dlookup_costs_aux p p i j

/-! ## Claims C5 and C6 -/

/-- Claim C5: for every Position mapping, the computed cost table satisfies
Cost(i, i) = 0 for every node i in the mapping and Cost(i, j) = Cost(j, i)
for every pair of nodes i, j in the mapping. -/
theorem C5_cost_diag_zero_and_symm (p : PosMap) :
    (∀ i, i ∈ keysOf p → dlookup (i, i) (costs p) = some 0) ∧
    (∀ i j, i ∈ keysOf p → j ∈ keysOf p →
      dlookup (i, j) (costs p) = dlookup (j, i) (costs p)) := by
  constructor
  · intro i hi
    obtain ⟨pi, hpi⟩ := dlookup_isSome_iff.mpr hi
    rw [dlookup_costs, hpi]
    simp [dist_self]
  · intro i j _ _
    rw [dlookup_costs, dlookup_costs]
    cases dlookup i p <;> cases dlookup j p <;> simp [dist_comm]

/-- Witness for C5 at the mapping `{1 ↦ (0,0), 2 ↦ (3,4)}`. -/
theorem C5_cost_diag_zero_and_symm_witness :
    dlookup ((1 : ℤ), (1 : ℤ)) (costs [(1, (0, 0)), (2, (3, 4))]) = some 0 ∧
    dlookup ((1 : ℤ), (2 : ℤ)) (costs [(1, (0, 0)), (2, (3, 4))]) =
      dlookup ((2 : ℤ), (1 : ℤ)) (costs [(1, (0, 0)), (2, (3, 4))]) :=
  ⟨(C5_cost_diag_zero_and_symm [(1, (0, 0)), (2, (3, 4))]).1 1 (by decide),
   (C5_cost_diag_zero_and_symm [(1, (0, 0)), (2, (3, 4))]).2 1 2 (by decide) (by decide)⟩

/-- Claim C6: for every valid instance file (nonnegative header counts), the
supplier range, the consumer range, and the cross-dock id returned by
`readInstance` are pairwise disjoint and their union is exactly the
contiguous integer range [1, nSuppliers + nConsumers + 1]. -/
theorem C6_id_partition (rows : List (List ℤ)) (n1 n2 : ℤ) (t : List ℤ)
    (s c : List ℤ) (cd : ℤ) (ps : PosMap)
    (hrow : rows.head? = some (n1 :: n2 :: t))
    (hn1 : 0 ≤ n1) (hn2 : 0 ≤ n2)
    (hread : readInstance rows = some (s, c, cd, ps)) :
    (∀ x, ¬(x ∈ s ∧ x ∈ c)) ∧ cd ∉ s ∧ cd ∉ c ∧
    (∀ x, (x ∈ s ∨ x ∈ c ∨ x = cd) ↔ 1 ≤ x ∧ x ≤ n1 + n2 + 1) := by
  cases rows with
  | nil => simp at hrow
  | cons r0 rest =>
    simp only [List.head?_cons, Option.some.injEq] at hrow
    subst hrow
    rw [readInstance, Option.map_eq_some'] at hread
    obtain ⟨ps', _, heq⟩ := hread
    simp only [Prod.mk.injEq] at heq
    obtain ⟨rfl, rfl, rfl, rfl⟩ := heq
    refine ⟨?_, ?_, ?_, ?_⟩
    · rintro x ⟨h1, h2⟩
      rw [mem_rangeZ] at h1 h2
      omega
    · simp only [mem_rangeZ]
      omega
    · simp only [mem_rangeZ]
      omega
    · intro x
      simp only [mem_rangeZ]
      omega

/-- When every edge has a cost entry, the inner edge loop returns the
accumulator plus the sum of the looked-up costs, in order. -/
theorem routeCost_eq_sum (cs : CostTable) (edges : List (ℤ × ℤ)) :
    ∀ acc : ℝ, (∀ e ∈ edges, ∃ v, dlookup e cs = some v) →
      routeCost cs edges acc =
        some (acc + (edges.map (fun e => (dlookup e cs).getD 0)).sum) := by
  induction edges with
  | nil =>
    intro acc _
    simp [routeCost]
  | cons e rest ih =>
    intro acc h
    obtain ⟨v, hv⟩ := h e (by simp)
    simp only [routeCost, hv]
    rw [ih (acc + v) (fun e2 he2 => h e2 (by simp [he2]))]
    simp [hv, add_assoc]

/-- When every edge of every route has a cost entry, the outer loop returns
the accumulator plus the sum over the flattened edge list. -/
theorem totalCost_eq_sum (cs : CostTable) (l : List (List (ℤ × ℤ))) :
    ∀ acc : ℝ, (∀ e ∈ l.flatten, ∃ v, dlookup e cs = some v) →
      totalCost cs l acc =
        some (acc + (l.flatten.map (fun e => (dlookup e cs).getD 0)).sum) := by
  induction l with
  | nil =>
    intro acc _
    simp [totalCost]
  | cons edges rest ih =>
    intro acc h
    have h1 : ∀ e ∈ edges, ∃ v, dlookup e cs = some v :=
      fun e he => h e (by simp [he])
    simp only [totalCost, routeCost_eq_sum cs edges acc h1]
    rw [ih _ (fun e he => h e (by simp [he]))]
    simp [add_assoc]

/-- If the inner edge loop produced a total, every edge had a cost entry. -/
theorem routeCost_some_imp (cs : CostTable) (edges : List (ℤ × ℤ)) :
    ∀ acc t, routeCost cs edges acc = some t →
      ∀ e ∈ edges, ∃ v, dlookup e cs = some v := by
  induction edges with
  | nil => simp
  | cons e rest ih =>
    intro acc t h e2 he2
    cases hv : dlookup e cs with
    | none => simp [routeCost, hv] at h
    | some v =>
      simp only [routeCost, hv] at h
      rcases List.mem_cons.mp he2 with rfl | hmem
      · exact ⟨v, hv⟩
      · exact ih (acc + v) t h e2 hmem

/-- If the outer loop produced a total, every edge of every route had a cost
entry. -/
theorem totalCost_some_imp (cs : CostTable) (l : List (List (ℤ × ℤ))) :
    ∀ acc t, totalCost cs l acc = some t →
      ∀ e ∈ l.flatten, ∃ v, dlookup e cs = some v := by
  induction l with
  | nil => simp
  | cons edges rest ih =>
    intro acc t h e he
    cases hr : routeCost cs edges acc with
    | none => simp [totalCost, hr] at h
    | some acc2 =>
      simp only [totalCost, hr] at h
      rw [List.flatten_cons, List.mem_append] at he
      rcases he with he | he
      · exact routeCost_some_imp cs edges acc acc2 hr e he
      · exact ih acc2 t h e he

/-! ## Claims C3 and C7 -/

/-- Claim C3: for every Route mapping and every Cost table covering its
edges, the total computed by the aggregation loop equals the sum of the cost
entries over the flattened edge list. -/
theorem C3_total_is_flat_sum (cs : CostTable) (routes : RouteMap)
    (hcov : ∀ e ∈ (routes.map Prod.snd).flatten, ∃ v, dlookup e cs = some v) :
    totalCost cs (routes.map Prod.snd) 0 =
      some (((routes.map Prod.snd).flatten.map (fun e => (dlookup e cs).getD 0)).sum) := by
  rw [totalCost_eq_sum cs _ 0 hcov, zero_add]

/-- Witness for C3: one owner, one edge, its cost entry 5. -/
theorem C3_total_is_flat_sum_witness :
    totalCost [(((1 : ℤ), (2 : ℤ)), (5 : ℝ))] ([(1, [(1, 2)])].map Prod.snd) 0 =
      some ((([(1, [(1, 2)])] : RouteMap).map Prod.snd).flatten.map
        (fun e => (dlookup e [(((1 : ℤ), (2 : ℤ)), (5 : ℝ))]).getD 0)).sum :=
  C3_total_is_flat_sum [(((1 : ℤ), (2 : ℤ)), (5 : ℝ))] [(1, [(1, 2)])]
    (by
      intro e he
      simp only [List.map_cons, List.map_nil, List.flatten, List.append_nil,
        List.mem_cons, List.not_mem_nil, or_false] at he
      subst he
      exact ⟨5, by simp [dlookup]⟩)

/-- Claim C7: the aggregation loop fails (producing no total) whenever some
route edge has no cost entry; and under the invariant that every node id
appearing in a route edge has a position, the failure branch is unreachable
and a total is produced. -/
theorem C7_lookup_error (cs : CostTable) (p : PosMap) (routes : RouteMap) :
    ((∃ e ∈ (routes.map Prod.snd).flatten, dlookup e cs = none) →
      totalCost cs (routes.map Prod.snd) 0 = none) ∧
    ((∀ e ∈ (routes.map Prod.snd).flatten, e.1 ∈ keysOf p ∧ e.2 ∈ keysOf p) →
      ∃ t, totalCost (costs p) (routes.map Prod.snd) 0 = some t) := by
  constructor
  · rintro ⟨e, he, hnone⟩
    cases h : totalCost cs (routes.map Prod.snd) 0 with
    | none => rfl
    | some t =>
      obtain ⟨v, hv⟩ := totalCost_some_imp cs _ 0 t h e he
      rw [hv] at hnone
      cases hnone
  · intro hinv
    have hcov : ∀ e ∈ (routes.map Prod.snd).flatten, ∃ v, dlookup e (costs p) = some v := by
      intro e he
      obtain ⟨h1, h2⟩ := hinv e he
      obtain ⟨p1, hp1⟩ := dlookup_isSome_iff.mpr h1
      obtain ⟨p2, hp2⟩ := dlookup_isSome_iff.mpr h2
      exact ⟨DrawRoute.dist p1 p2, by rw [show e = (e.1, e.2) from rfl, dlookup_costs, hp1, hp2]⟩
    exact ⟨_, totalCost_eq_sum (costs p) _ 0 hcov⟩

/-- Witness for C7: the empty cost table misses the only edge, and the
two-node position mapping covers it. -/
theorem C7_lookup_error_witness :
    totalCost [] (([(1, [(1, 2)])] : RouteMap).map Prod.snd) 0 = none ∧
    ∃ t, totalCost (costs [(1, (0, 0)), (2, (3, 4))])
      (([(1, [(1, 2)])] : RouteMap).map Prod.snd) 0 = some t :=
  ⟨(C7_lookup_error [] [(1, (0, 0)), (2, (3, 4))] [(1, [(1, 2)])]).1
      ⟨(1, 2), by simp, rfl⟩,
   (C7_lookup_error [] [(1, (0, 0)), (2, (3, 4))] [(1, [(1, 2)])]).2 (by decide)⟩

/-- Membership survives first-seen deduplication. -/
theorem mem_firstSeen {a : ℤ} {l : List ℤ} : a ∈ firstSeen l ↔ a ∈ l := by
  induction l with
  | nil => simp [firstSeen]
  | cons b rest ih =>
    by_cases hab : a = b
    · subst hab
      simp [firstSeen]
    · simp [firstSeen, hab, List.mem_filter, ih]

/-- Appending one element to the scanned list extends the first-seen order
only when the element is new. -/
theorem firstSeen_append_singleton (l : List ℤ) (a : ℤ) :
    firstSeen (l ++ [a]) = if a ∈ l then firstSeen l else firstSeen l ++ [a] := by
  induction l with
  | nil => simp [firstSeen]
  | cons b rest ih =>
    rw [List.cons_append, firstSeen, ih, firstSeen]
    by_cases hal : a ∈ rest
    · rw [if_pos hal, if_pos (by simp [hal])]
    · by_cases hab : a = b
      · subst hab
        rw [if_neg hal, if_pos (by simp), List.filter_append]
        simp
      · rw [if_neg hal, if_neg (by simp [hab, hal]), List.filter_append]
        simp [hab]

/-- An owner that never occurs owns no edges. -/
theorem edgesOf_eq_nil {a : ℤ} {entries : List (ℤ × ℤ × ℤ)}
    (h : a ∉ entries.map Prod.fst) : edgesOf a entries = [] := by
  rw [edgesOf, List.map_eq_nil_iff, List.filter_eq_nil_iff]
  intro q hq
  simp only [decide_eq_true_eq]
  intro hqa
  exact h (List.mem_map.mpr ⟨q, hq, hqa⟩)

/-- Appending one entry appends its edge to exactly its owner's list. -/
theorem edgesOf_append_singleton (o a : ℤ) (e : ℤ × ℤ)
    (entries : List (ℤ × ℤ × ℤ)) :
    edgesOf o (entries ++ [(a, e)]) =
      if o = a then edgesOf o entries ++ [e] else edgesOf o entries := by
  by_cases h : a = o
  · subst h
    simp [edgesOf, List.filter_append]
  · simp [edgesOf, List.filter_append, h, Ne.symm h]

/-- The keys of the spec-level route mapping are the first-seen owners. -/
theorem keysOf_routesSpec (entries : List (ℤ × ℤ × ℤ)) :
    keysOf (routesSpec entries) = firstSeen (entries.map Prod.fst) := by
  rw [routesSpec, keysOf, List.map_map]
  exact List.map_id _

/-- Lookup in the graph of a function over a key list. -/
theorem dlookup_map_graph {β : Type} (f : ℤ → β) (l : List ℤ) (k : ℤ) :
    dlookup k (l.map (fun o => (o, f o))) =
      if k ∈ l then some (f k) else none := by
  induction l with
  | nil => simp [dlookup]
  | cons o rest ih =>
    by_cases h : o = k
    · subst h
      simp [dlookup]
    · simp [dlookup, h, ih, List.mem_cons, Ne.symm h]

/-- Lookup in the spec-level route mapping. -/
theorem dlookup_routesSpec (entries : List (ℤ × ℤ × ℤ)) (o : ℤ) :
    dlookup o (routesSpec entries) =
      if o ∈ entries.map Prod.fst then some (edgesOf o entries) else none := by
  rw [routesSpec, dlookup_map_graph]
  by_cases h : o ∈ entries.map Prod.fst
  · rw [if_pos (mem_firstSeen.mpr h), if_pos h]
  · rw [if_neg (fun hc => h (mem_firstSeen.mp hc)), if_neg h]

/-- One dictionary step of the result loop corresponds to appending the entry
on the spec side. -/
theorem routeInsert_routesSpec (a : ℤ) (e : ℤ × ℤ) (entries : List (ℤ × ℤ × ℤ)) :
    routeInsert a e (routesSpec entries) = routesSpec (entries ++ [(a, e)]) := by
  by_cases ha : a ∈ entries.map Prod.fst
  · rw [routeInsert, dlookup_routesSpec, if_pos ha, Option.getD_some, dictInsert,
      if_pos (by rw [keysOf_routesSpec, mem_firstSeen]; exact ha)]
    rw [routesSpec, List.map_map]
    rw [show routesSpec (entries ++ [(a, e)]) =
      (firstSeen ((entries ++ [(a, e)]).map Prod.fst)).map
        (fun o => (o, edgesOf o (entries ++ [(a, e)]))) from rfl]
    rw [List.map_append, List.map_cons, List.map_nil, firstSeen_append_singleton,
      if_pos ha]
    refine List.map_congr_left ?_
    intro o _
    simp only [Function.comp_apply, edgesOf_append_singleton]
    by_cases hoa : o = a
    · subst hoa
      simp
    · simp [hoa]
  · rw [routeInsert, dlookup_routesSpec, if_neg ha, Option.getD_none, dictInsert,
      if_neg (by rw [keysOf_routesSpec, mem_firstSeen]; exact ha)]
    rw [show routesSpec (entries ++ [(a, e)]) =
      (firstSeen ((entries ++ [(a, e)]).map Prod.fst)).map
        (fun o => (o, edgesOf o (entries ++ [(a, e)]))) from rfl]
    rw [List.map_append, List.map_cons, List.map_nil, firstSeen_append_singleton,
      if_neg ha, List.map_append]
    congr 1
    · rw [routesSpec]
      refine List.map_congr_left ?_
      intro o ho
      have hoa : o ≠ a := fun hc => ha (hc ▸ mem_firstSeen.mp ho)
      rw [edgesOf_append_singleton, if_neg hoa]
    · simp [edgesOf_append_singleton, edgesOf_eq_nil ha, List.nil_append]

/-- A line with at most one token never parses as an edge. -/
theorem parseEdgeLine_short {line : List (Option ℤ)} (h : line.length ≤ 1) :
    parseEdgeLine line = none := by
  match line with
  | [] => rfl
  | [t] =>
    cases t <;> rfl
  | t :: u :: rest => simp at h

/-- The result loop started from a spec-level state lands on the spec-level
mapping of the accumulated entries. -/
theorem readResultAux_spec (lines : List (List (Option ℤ))) :
    ∀ (entries : List (ℤ × ℤ × ℤ)) (r : RouteMap),
      readResultAux lines (routesSpec entries) = some r →
      r = routesSpec (entries ++ extractEntries lines) := by
  induction lines with
  | nil =>
    intro entries r h
    simp only [readResultAux, Option.some.injEq] at h
    simp [extractEntries, ← h]
  | cons line rest ih =>
    intro entries r h
    by_cases hlen : line.length > 1
    · cases hp : parseEdgeLine line with
      | none => simp [readResultAux, hlen, hp] at h
      | some abc =>
        obtain ⟨a, bc⟩ := abc
        simp only [readResultAux, hlen, if_true, hp] at h
        rw [routeInsert_routesSpec] at h
        rw [ih (entries ++ [(a, bc)]) r h]
        simp [extractEntries, List.filterMap_cons, hp, List.append_assoc]
    · have hp : parseEdgeLine line = none := parseEdgeLine_short (by omega)
      simp only [readResultAux, hlen, if_false] at h
      rw [ih entries r h]
      simp [extractEntries, List.filterMap_cons, hp]

/-- Any mapping produced by the result loop when some line is a qualifying
non-edge is impossible: the loop aborts. -/
theorem readResultAux_bad (lines : List (List (Option ℤ))) :
    ∀ d : RouteMap,
      (∃ line ∈ lines, line.length > 1 ∧ parseEdgeLine line = none) →
      readResultAux lines d = none := by
  induction lines with
  | nil => simp
  | cons l rest ih =>
    rintro d ⟨line, hm, hlen, hp⟩
    rcases List.mem_cons.mp hm with rfl | hm2
    · simp [readResultAux, hlen, hp]
    · by_cases h1 : l.length > 1
      · cases hq : parseEdgeLine l with
        | none => simp [readResultAux, h1, hq]
        | some abc =>
          obtain ⟨a, bc⟩ := abc
          simp only [readResultAux, h1, if_true, hq]
          exact ih _ ⟨line, hm2, hlen, hp⟩
      · simp only [readResultAux, h1, if_false]
        exact ih _ ⟨line, hm2, hlen, hp⟩

/-- Every owner of the spec-level mapping owns at least one edge. -/
theorem routesSpec_values_nonempty (entries : List (ℤ × ℤ × ℤ)) :
    ∀ p ∈ routesSpec entries, p.2 ≠ [] := by
  intro p hp
  obtain ⟨o, ho, rfl⟩ := List.mem_map.mp hp
  obtain ⟨q, hq, hqo⟩ := List.mem_map.mp (mem_firstSeen.mp ho)
  have hmem : q.2 ∈ edgesOf o entries := by
    rw [edgesOf]
    exact List.mem_map.mpr ⟨q, List.mem_filter.mpr ⟨hq, by simpa using hqo⟩, rfl⟩
  show edgesOf o entries ≠ []
  intro hnil
  rw [hnil] at hmem
  exact List.not_mem_nil q.2 hmem

/-! ## Claims C4, C9, C10 -/

/-- Claim C4: for every result file on which `readResult` succeeds, the
returned mapping is exactly the spec-level one: lines with at most one token
are skipped, each three-integer line contributes its edge to its owner, the
owners appear in first-seen insertion order and each owner's edges in file
order. -/
theorem C4_readResult_refines_spec (lines : List (List (Option ℤ))) (d : RouteMap)
    (h : readResult lines = some d) : d = routesSpec (extractEntries lines) := by
  have h0 : readResultAux lines (routesSpec []) = some d := h
  simpa using readResultAux_spec lines [] d h0

/-- Witness for C4 on a four-line file with a skipped one-token line and an
interleaved second owner. -/
theorem C4_readResult_refines_spec_witness :
    readResult [[some 1, some 1, some 2], [some 7], [some 2, some 5, some 6],
        [some 1, some 2, some 3]] =
      some [(1, [(1, 2), (2, 3)]), (2, [(5, 6)])] ∧
    ([(1, [(1, 2), (2, 3)]), (2, [(5, 6)])] : RouteMap) =
      routesSpec (extractEntries [[some 1, some 1, some 2], [some 7],
        [some 2, some 5, some 6], [some 1, some 2, some 3]]) :=
  ⟨by rfl,
   C4_readResult_refines_spec [[some 1, some 1, some 2], [some 7],
     [some 2, some 5, some 6], [some 1, some 2, some 3]]
     [(1, [(1, 2), (2, 3)]), (2, [(5, 6)])] (by rfl)⟩

/-- Claim C9: a result-file line with two or more tokens that is not exactly
three parseable integers makes `readResult` fail rather than be skipped. -/
theorem C9_bad_line_fails (lines : List (List (Option ℤ))) (line : List (Option ℤ))
    (hm : line ∈ lines) (hlen : line.length > 1)
    (hp : parseEdgeLine line = none) : readResult lines = none :=
  readResultAux_bad lines [] ⟨line, hm, hlen, hp⟩

/-- Witness for C9 on the Scenario B file: the line `TotalObjective 42`
tokenizes as a non-integer followed by an integer. -/
theorem C9_bad_line_fails_witness :
    readResult [[none, some 42]] = none :=
  C9_bad_line_fails [[none, some 42]] [none, some 42] (by simp) (by simp) (by rfl)

/-- Claim C10: every owner present in a mapping returned by `readResult`
maps to a non-empty edge list. -/
theorem C10_owner_lists_nonempty (lines : List (List (Option ℤ))) (d : RouteMap)
    (h : readResult lines = some d) :
    ∀ o es, (o, es) ∈ d → es ≠ [] := by
  intro o es hmem
  have h0 : readResultAux lines (routesSpec []) = some d := h
  have hd := readResultAux_spec lines [] d h0
  subst hd
  exact routesSpec_values_nonempty _ (o, es) hmem

/-- Witness for C10 on the same four-line file. -/
theorem C10_owner_lists_nonempty_witness :
    ([(1, 2), (2, 3)] : List (ℤ × ℤ)) ≠ [] :=
  C10_owner_lists_nonempty [[some 1, some 1, some 2], [some 7],
      [some 2, some 5, some 6], [some 1, some 2, some 3]]
    [(1, [(1, 2), (2, 3)]), (2, [(5, 6)])] (by rfl) 1 [(1, 2), (2, 3)] (by simp)

/-- With covered costs, the drawing loop on three or more owners renders the
first two and aborts with the index error at the third. -/
theorem drawLoop_three (cs : CostTable) (e1 e2 e3 : List (ℤ × ℤ))
    (rest : List (List (ℤ × ℤ)))
    (h1 : ∀ e ∈ e1, ∃ v, dlookup e cs = some v)
    (h2 : ∀ e ∈ e2, ∃ v, dlookup e cs = some v)
    (h3 : ∀ e ∈ e3, ∃ v, dlookup e cs = some v) :
    (drawLoop cs (e1 :: e2 :: e3 :: rest) 0 0 []).2 =
      Except.error RunError.indexErr ∧
    (drawLoop cs (e1 :: e2 :: e3 :: rest) 0 0 []).1.length = 2 := by
  obtain ⟨t1, hc1⟩ : ∃ t, routeCost cs e1 0 = some t :=
    ⟨_, routeCost_eq_sum cs e1 0 h1⟩
  obtain ⟨t2, hc2⟩ : ∃ t, routeCost cs e2 t1 = some t :=
    ⟨_, routeCost_eq_sum cs e2 t1 h2⟩
  obtain ⟨t3, hc3⟩ : ∃ t, routeCost cs e3 t2 = some t :=
    ⟨_, routeCost_eq_sum cs e3 t2 h3⟩
  simp [drawLoop, hc1, hc2, hc3, colors, styles]

/-- Keys are unchanged by an overwriting insert and extended by a fresh one. -/
theorem mem_keysOf_dictInsert {α : Type} (k : ℤ) (v : α) (d : List (ℤ × α))
    (k2 : ℤ) : k2 ∈ keysOf (dictInsert k v d) ↔ k2 ∈ keysOf d ∨ k2 = k := by
  rw [dictInsert]
  by_cases h : k ∈ keysOf d
  · rw [if_pos h]
    have hkeys : keysOf (d.map (fun kv => if kv.1 = k then (k, v) else kv)) = keysOf d := by
      rw [keysOf, List.map_map, keysOf]
      refine List.map_congr_left ?_
      intro kv _
      by_cases hkv : kv.1 = k
      · simp [hkv]
      · simp [hkv]
    rw [hkeys]
    constructor
    · exact Or.inl
    · rintro (hk | rfl)
      · exact hk
      · exact h
  · rw [if_neg h, keysOf, List.map_append]
    simp [keysOf]

/-- Every node id heading a processed row ends up among the position keys,
and previously stored keys survive. -/
theorem readRows_keys (rl : List (List ℤ)) :
    ∀ d ps : PosMap, readRows rl d = some ps →
      (∀ k, k ∈ keysOf d → k ∈ keysOf ps) ∧
      (∀ a b c t, (a :: b :: c :: t) ∈ rl → a ∈ keysOf ps) := by
  induction rl with
  | nil =>
    intro d ps h
    simp only [readRows, Option.some.injEq] at h
    subst h
    exact ⟨fun _ hk => hk, by simp⟩
  | cons row rest ih =>
    intro d ps h
    rcases row with _ | ⟨a, _ | ⟨b, _ | ⟨c, t⟩⟩⟩
    · simp [readRows] at h
    · simp [readRows] at h
    · simp [readRows] at h
    · simp only [readRows] at h
      obtain ⟨hkeep, hrows⟩ := ih (dictInsert a (b, c) d) ps h
      constructor
      · intro k hk
        exact hkeep k ((mem_keysOf_dictInsert a (b, c) d k).mpr (Or.inl hk))
      · intro a2 b2 c2 t2 hmem
        rcases List.mem_cons.mp hmem with heq | hmem2
        · have ha : a2 = a := by injection heq
          subst ha
          exact hkeep a2 ((mem_keysOf_dictInsert a2 (b, c) d a2).mpr (Or.inr rfl))
        · exact hrows a2 b2 c2 t2 hmem2

/-! ## Claims C8, C1, C2 -/

/-- Claim C8: with a cost table covering all route edges, a result file with
three or more distinct owners makes the run fail with the index error on the
two-element style/color arrays while the third owner is processed: only the
first two owners' edge lists are rendered. -/
theorem C8_render_capacity (cs : CostTable) (routes : RouteMap)
    (hlen : 3 ≤ routes.length)
    (hcov : ∀ e ∈ (routes.map Prod.snd).flatten, ∃ v, dlookup e cs = some v) :
    (drawLoop cs (routes.map Prod.snd) 0 0 []).2 =
      Except.error RunError.indexErr ∧
    (drawLoop cs (routes.map Prod.snd) 0 0 []).1.length = 2 := by
  rcases routes with _ | ⟨r1, _ | ⟨r2, _ | ⟨r3, rest⟩⟩⟩
  · simp at hlen
  · simp at hlen
  · simp at hlen
  · simp only [List.map_cons] at hcov ⊢
    refine drawLoop_three cs r1.2 r2.2 r3.2 (rest.map Prod.snd)
      (fun e he => hcov e ?_) (fun e he => hcov e ?_) (fun e he => hcov e ?_) <;>
      simp [he]

/-- Witness for C8: three owners, each with the single covered edge (1, 1). -/
theorem C8_render_capacity_witness :
    (drawLoop [(((1 : ℤ), (1 : ℤ)), (0 : ℝ))]
        (([(1, [(1, 1)]), (2, [(1, 1)]), (3, [(1, 1)])] : RouteMap).map Prod.snd)
        0 0 []).2 = Except.error RunError.indexErr ∧
    (drawLoop [(((1 : ℤ), (1 : ℤ)), (0 : ℝ))]
        (([(1, [(1, 1)]), (2, [(1, 1)]), (3, [(1, 1)])] : RouteMap).map Prod.snd)
        0 0 []).1.length = 2 :=
  C8_render_capacity [(((1 : ℤ), (1 : ℤ)), (0 : ℝ))]
    [(1, [(1, 1)]), (2, [(1, 1)]), (3, [(1, 1)])] (by norm_num)
    (by
      intro e he
      simp only [List.map_cons, List.map_nil, List.flatten, List.append_nil,
        List.cons_append, List.nil_append, List.mem_cons, List.not_mem_nil,
        or_false] at he
      rcases he with rfl | rfl | rfl <;> exact ⟨0, by simp [dlookup]⟩)

/-- Counterexample to claim C1: on the instance file with rows
`(1,1) / (1,0,0) / (2,3,4)`, `readInstance` succeeds but its Position
mapping has no entry for node 1, whose data row `(1,0,0)` is row index 1
and is dropped by the `[2:]` slice; the claim requires `some (some (0, 0))`
here. -/
theorem C1_counterexample :
    instPositionsLookup [[1, 1], [1, 0, 0], [2, 3, 4]] 1 = some none ∧
    instPositionsLookup [[1, 1], [1, 0, 0], [2, 3, 4]] 1 ≠ some (some (0, 0)) := by
  refine ⟨by rfl, ?_⟩
  intro h
  rw [show instPositionsLookup [[1, 1], [1, 0, 0], [2, 3, 4]] 1 = some none from rfl] at h
  simp at h

/-- Claim C1 as amended: `readInstance` returns a Position mapping with an
entry for the node id of every data row from file row index 2 onward; the
first data row (index 1) is skipped together with the header. -/
theorem C1_amended_rows_from_two (rows : List (List ℤ)) (s c : List ℤ)
    (cd : ℤ) (ps : PosMap)
    (hread : readInstance rows = some (s, c, cd, ps)) :
    ∀ a b c2 t, (a :: b :: c2 :: t) ∈ rows.drop 2 → ∃ v, dlookup a ps = some v := by
  rcases rows with _ | ⟨r0, rest⟩
  · simp [readInstance] at hread
  rcases r0 with _ | ⟨n1, _ | ⟨n2, t0⟩⟩
  · simp [readInstance] at hread
  · simp [readInstance] at hread
  rw [readInstance, Option.map_eq_some'] at hread
  obtain ⟨ps2, hps, heq⟩ := hread
  simp only [Prod.mk.injEq] at heq
  obtain ⟨-, -, -, rfl⟩ := heq
  intro a b c2 t hmem
  exact dlookup_isSome_iff.mpr
    ((readRows_keys _ [] ps2 hps).2 a b c2 t hmem)

/-- Witness for the amended C1 at the Scenario A file: node 2's row is at
index 2 and is stored. -/
theorem C1_amended_rows_from_two_witness :
    ∃ v, dlookup (2 : ℤ) ([(2, (3, 4))] : PosMap) = some v :=
  C1_amended_rows_from_two [[1, 1], [1, 0, 0], [2, 3, 4]] [1] [2] 3 [(2, (3, 4))]
    (by rfl) 2 3 4 [] (by simp)

/-- Counterexample to claim C2: on the Scenario A instance and the result
line `1 1 2`, the pipeline does not produce the total 5.0 — the cost lookup
for edge (1, 2) fails because node 1's row was dropped. -/
theorem C2_counterexample :
    pipelineTotal [[1, 1], [1, 0, 0], [2, 3, 4]] [[some 1, some 1, some 2]] ≠
      some (some 5) := by
  intro h
  rw [show pipelineTotal [[1, 1], [1, 0, 0], [2, 3, 4]] [[some 1, some 1, some 2]] =
    some none from rfl] at h
  simp at h

/-- Claim C2 as amended: `readInstance` yields cross-dock id 3, but the
Position mapping holds only node 2, so with result line `1 1 2` the total
cost computation fails on the missing cost entry for edge (1, 2) instead of
returning 5.0. -/
theorem C2_amended_cd3_lookup_fails :
    readInstance [[1, 1], [1, 0, 0], [2, 3, 4]] =
      some ([1], [2], 3, [(2, (3, 4))]) ∧
    pipelineTotal [[1, 1], [1, 0, 0], [2, 3, 4]] [[some 1, some 1, some 2]] =
      some none :=
  ⟨by rfl, by rfl⟩

/-- Witness for C6 at the instance file of Scenario A. -/
theorem C6_id_partition_witness :
    (∀ x, ¬(x ∈ [(1 : ℤ)] ∧ x ∈ [(2 : ℤ)])) ∧ (3 : ℤ) ∉ [(1 : ℤ)] ∧
    (3 : ℤ) ∉ [(2 : ℤ)] ∧
    (∀ x : ℤ, (x ∈ [(1 : ℤ)] ∨ x ∈ [(2 : ℤ)] ∨ x = 3) ↔ 1 ≤ x ∧ x ≤ 1 + 1 + 1) :=
  C6_id_partition [[1, 1], [1, 0, 0], [2, 3, 4]] 1 1 [] [1] [2] 3 [(2, (3, 4))]
    (by rfl) (by norm_num) (by norm_num) (by rfl)

end DrawRoute
